import Mathlib

/-!
Verification development for `q2_fondue/sequences.py`.

The Python module orchestrates an external download tool (`fasterq-dump`),
renames the downloaded FASTQ files into the Casava naming scheme, and
re-serializes their records into two output directories.  The definitions
below are a shallow embedding of that module:

* subprocess invocations are abstracted into environments that record, per
  invocation, the captured result and the file-system effect the tool had;
* the scratch directory and the two output containers are modelled as lists
  of named files, each file being its list of text lines (gzip compression
  and UTF-8 encoding are bijective transports of the text and are dropped);
* Python exceptions are modelled by an `Except` result with an explicit
  error type; an `UnboundLocalError` at the `return` statement of the retry loop
  is modelled by a `none` result component.

Filenames are assumed not to contain the newline character, so the greedy
Python regular expression match of a name against a group followed by an
anchored literal suffix agrees with suffix stripping.
-/

/-- One error case per Python exception the module can raise. -/
inductive PyError where
  /-- Python `AttributeError`: `None.strip()` in `_read_fastq_seqs`, or
  `re.search(...).group(1)` on a non-matching filename. -/
  | attributeError
  /-- Python `IndexError`: `ls_files_sorted[i+1]` past the end of the list. -/
  | indexError
  /-- Python `FileNotFoundError`: `os.rename` or `gzip.open` on a missing path. -/
  | fileNotFoundError
  /-- Python `ValueError` raised by `_run_fasterq_dump_for_all`, carrying the
  accession and the captured stderr of the last tool invocation. -/
  | valueError (acc stderr : String)
deriving Repr, DecidableEq

/-- The captured result of one `subprocess.run` invocation
(`result.returncode` and `result.stderr`). -/
structure RunResult where
  returncode : Int
  stderr : String
deriving Repr, DecidableEq

/-- Environment abstracting the external tool for one fixed accession,
scratch directory and thread count.  `result k` is the captured result of
the `k`-th invocation (0-indexed); `fileExists k` says whether
`os.path.isfile(<acc>.fastq) | os.path.isfile(<acc>_1.fastq)` holds in the
scratch directory right after the `k`-th invocation. -/
structure FasterqEnv where
  result : Nat → RunResult
  fileExists : Nat → Bool

/-- The `while retries >= 0` loop body of `_run_cmd_fasterq`, entered with
`invoked` invocations already performed and a current (non-negative) value
`r` of the Python variable `retries`.  Returns the total number of
invocations performed together with the result of the last invocation. -/
def runCmdLoop (env : FasterqEnv) (invoked : Nat) : Nat → Nat × RunResult
  | 0 =>
      -- `retries` is 0: run once more; on failure `retries` becomes -1 and
      -- the loop exits, on success `retries` is set to -1 as well.
      (invoked + 1, env.result invoked)
  | r + 1 =>
      if env.fileExists invoked then (invoked + 1, env.result invoked)
      else runCmdLoop env (invoked + 1) r

/-- Model of `_run_cmd_fasterq`: runs the tool until a qualifying output file exists
or the retry budget is exhausted.  The first component counts the tool
invocations performed; the second is the value returned by the Python
function (`none` models the `UnboundLocalError` at `return result` when the
loop body never ran, i.e. when `retries` was negative on entry). -/
def run_cmd_fasterq (env : FasterqEnv) (retries : Int) : Nat × Option RunResult :=
  if retries < 0 then (0, none)
  else
    let out := runCmdLoop env 0 retries.toNat
    (out.1, some out.2)

/-- A file of the scratch directory or of an output container: its name and
its decompressed text content, as a list of lines (newline terminators
stripped; gzip and UTF-8 are dropped as bijective transports). -/
structure SFile where
  name : String
  lines : List String
deriving Repr, DecidableEq

/-- What the call of one accession to `_run_cmd_fasterq` amounts to for
`_run_fasterq_dump_for_all`: the files the tool deposited in the scratch
directory for this accession, and the stderr captured from the last
invocation (`result.stderr`). -/
structure AccFetch where
  acc : String
  files : List SFile
  stderr : String
deriving Repr, DecidableEq

/-- Model of `_run_fasterq_dump_for_all`: iterates the accession list, accumulating
the scratch-directory contents `dir`; after each accession it raises
`ValueError` when `len(os.listdir(tmpdirname)) == 0`.  Returns the final
scratch-directory contents. -/
def run_fasterq_dump_for_all (dir : List SFile) : List AccFetch → Except PyError (List SFile)
  | [] => .ok dir
  | a :: rest =>
      let dir' := dir ++ a.files
      if dir'.length = 0 then .error (.valueError a.acc a.stderr)
      else run_fasterq_dump_for_all dir' rest

/-- Python whitespace as removed by `str.strip()`. -/
def pyWhitespace (c : Char) : Bool :=
  c = ' ' || c = '\t' || c = '\n' || c = '\r' || c = '\x0b' || c = '\x0c'

/-- The Python function `str.strip()`: removes leading and trailing whitespace. -/
def pyStrip (s : String) : String :=
  String.mk (((s.data.dropWhile pyWhitespace).reverse.dropWhile pyWhitespace).reverse)

/-- One FASTQ record as yielded by `_read_fastq_seqs`: the 4-tuple
`(seq_header, seq, qual_header, qual)` of stripped lines. -/
structure FastqRec where
  header : String
  seq : String
  qualHeader : String
  qual : String
deriving Repr, DecidableEq

/-- The generator `_read_fastq_seqs` as a whole: groups the lines of the file in
fours via `itertools.zip_longest(*[fh] * 4)` and strips each field.  The
first component lists the records yielded; the Boolean is `true` when the
generator then raises `AttributeError` — `zip_longest` pads a trailing
partial group with `None` and `None.strip()` fails. -/
def read_fastq_seqs_gen : List String → List FastqRec × Bool
  | [] => ([], false)
  | a :: b :: c :: d :: rest =>
      let out := read_fastq_seqs_gen rest
      (⟨pyStrip a, pyStrip b, pyStrip c, pyStrip d⟩ :: out.1, out.2)
  | _ => ([], true)

/-- Fully draining `_read_fastq_seqs`, as the Casava writers do:
the records, unless the trailing partial group raises. -/
def read_fastq_seqs (lines : List String) : Except PyError (List FastqRec) :=
  let out := read_fastq_seqs_gen lines
  if out.2 then .error .attributeError else .ok out.1

/-- Model of `filename.endswith(suffix)`; also models the successful match of
the anchored `re.search` suffix pattern for newline-free names. -/
def endsWithSuffix (s suffix : String) : Bool :=
  List.isSuffixOf suffix.data s.data

/-- The `group(1)` part of a `re.search` suffix match: the name with its
last `n` characters (the matched suffix) removed. -/
def stripSuffix (s : String) (n : Nat) : String :=
  String.mk (s.data.take (s.data.length - n))

/-- The classification of one filename inside the loop of
`_process_downloaded_sequences`: the new Casava name and whether the file
is paired-end.  `none` models the fatal `AttributeError` when the filename
matches none of the extraction patterns. -/
def classify_filename (fn : String) : Option (String × Bool) :=
  if endsWithSuffix fn "_1.fastq.gz" then
    some (stripSuffix fn 11 ++ "_00_L001_R1_001.fastq.gz", true)
  else if endsWithSuffix fn "_2.fastq.gz" then
    some (stripSuffix fn 11 ++ "_00_L001_R2_001.fastq.gz", true)
  else if endsWithSuffix fn ".fastq.gz" then
    some (stripSuffix fn 9 ++ "_00_L001_R1_001.fastq.gz", false)
  else none

/-- Opening the directory entry named `n` (first match). -/
def lookupFile (dir : List SFile) (n : String) : Option SFile :=
  dir.find? (fun f => f.name == n)

/-- Model of `os.rename(old, new)` on the scratch directory: fails when `old` does
not exist; silently replaces an existing file named `new`. -/
def renameFile (dir : List SFile) (old new : String) : Except PyError (List SFile) :=
  match lookupFile dir old with
  | none => .error .fileNotFoundError
  | some f => .ok ((dir.filter fun g => !(g.name == old) && !(g.name == new)) ++ [⟨new, f.lines⟩])

/-- The renaming loop of `_process_downloaded_sequences` over the snapshot
`listing` of `os.listdir(output_dir)`, accumulating the `ls_single` and
`ls_paired` name lists. -/
def processLoop (dir : List SFile) (aS aP : List String) :
    List String → Except PyError (List SFile × List String × List String)
  | [] => .ok (dir, aS, aP)
  | fn :: rest =>
      match classify_filename fn with
      | none => .error .attributeError
      | some (new, isPaired) =>
          match renameFile dir fn new with
          | .error e => .error e
          | .ok dir' =>
              processLoop dir' (if isPaired then aS else aS ++ [new])
                (if isPaired then aP ++ [new] else aP) rest

/-- The recursive `gzip -r` pass: every file not already ending in `.gz`
is compressed in place, acquiring a `.gz` suffix (content is kept, as the
embedding stores the decompressed text). -/
def gzipDir (dir : List SFile) : List SFile :=
  dir.map fun f =>
    if endsWithSuffix f.name ".gz" then f else ⟨f.name ++ ".gz", f.lines⟩

/-- Model of `_process_downloaded_sequences`: gzips the scratch directory, then
renames every listed file to its Casava name, returning the resulting
directory together with the single-read and paired-end name lists. -/
def process_downloaded_sequences (dir : List SFile) :
    Except PyError (List SFile × List String × List String) :=
  let gz := gzipDir dir
  processLoop gz [] [] (gz.map SFile.name)

/-- Strict lexicographic comparison of code-point lists: The Python operator `<` on
strings, used by `sorted`. -/
def natLexLt : List Nat → List Nat → Bool
  | [], [] => false
  | [], _ :: _ => true
  | _ :: _, [] => false
  | a :: as, b :: bs =>
      if a < b then true
      else if b < a then false
      else natLexLt as bs

/-- The code points of a string, the alphabet Python compares by. -/
def charCodes (s : String) : List Nat :=
  s.data.map Char.toNat

/-- The Python comparison `s <= t` on strings (total order on code-point sequences). -/
def pyStrLe (s t : String) : Bool :=
  !natLexLt (charCodes t) (charCodes s)

/-- Insertion of one element into a sorted list, ascending by `pyStrLe`. -/
def pyOrderedInsert (x : String) : List String → List String
  | [] => [x]
  | y :: ys => if pyStrLe x y then x :: y :: ys else y :: pyOrderedInsert x ys

/-- The Python builtin `sorted` on a list of strings: an ascending stable sort by the
code-point order (insertion sort is extensionally that sort). -/
def pySorted : List String → List String
  | [] => []
  | x :: xs => pyOrderedInsert x (pySorted xs)

/-- The four lines that joining a record with newlines and appending a final
newline contributes to the output file (fields contain no newline, being
stripped lines). -/
def casava_record_lines (r : FastqRec) : List String :=
  [r.header, r.seq, r.qualHeader, r.qual]

/-- The full text a Casava writer emits for a record sequence. -/
def casavaEncode : List FastqRec → List String
  | [] => []
  | r :: rs => casava_record_lines r ++ casavaEncode rs

/-- Model of `_write2casava_dir_single`: for each listed scratch file whose name is
in `consider`, drain `_read_fastq_seqs` and re-emit the records into an
output file of the same name. -/
def write2casava_dir_single (tmpdir : List SFile) (consider : List String) :
    Except PyError (List SFile) :=
  match tmpdir with
  | [] => .ok []
  | f :: fs =>
      if consider.contains f.name then
        match read_fastq_seqs f.lines with
        | .error e => .error e
        | .ok recs =>
            match write2casava_dir_single fs consider with
            | .error e => .error e
            | .ok out => .ok (⟨f.name, casavaEncode recs⟩ :: out)
      else write2casava_dir_single fs consider

/-- Model of `zip(_read_fastq_seqs(fwd), _read_fastq_seqs(rev))` drained by the
the `for` loop of the paired writer.  `zip` pulls the forward generator first and
stops at the first exhausted one, so a trailing-partial-group
`AttributeError` of a reader fires only if that reader is actually pulled
past its complete records: the forward one when it is not longer than the
reverse one, the reverse one otherwise. -/
def zipPulls (ra : List FastqRec) (ea : Bool) (rb : List FastqRec) (eb : Bool) :
    Except PyError (List (FastqRec × FastqRec)) :=
  if (if ra.length ≤ rb.length then ea else eb) then .error .attributeError
  else .ok (ra.zip rb)

/-- The pairing loop of `_write2casava_dir_double` over the sorted name
list: takes names two at a time (`ls_files_sorted[i]`, `ls_files_sorted[i+1]`),
zips the two record streams and writes each pair side into its own output
file.  A leftover single name models the `IndexError` on `i+1`.  When the
forward file yields no record and does not raise, the reverse file is never
opened (the `zip` never pulls it), and both output files stay empty. -/
def write_double_loop (tmpdir : List SFile) : List String → Except PyError (List SFile)
  | [] => .ok []
  | [_] => .error .indexError
  | n1 :: n2 :: rest =>
      match lookupFile tmpdir n1 with
      | none => .error .fileNotFoundError
      | some f1 =>
          let outA := read_fastq_seqs_gen f1.lines
          if outA.1.isEmpty then
            if outA.2 then .error .attributeError
            else
              match write_double_loop tmpdir rest with
              | .error e => .error e
              | .ok outs => .ok (⟨n1, []⟩ :: ⟨n2, []⟩ :: outs)
          else
            match lookupFile tmpdir n2 with
            | none => .error .fileNotFoundError
            | some f2 =>
                let outB := read_fastq_seqs_gen f2.lines
                match zipPulls outA.1 outA.2 outB.1 outB.2 with
                | .error e => .error e
                | .ok pairs =>
                    match write_double_loop tmpdir rest with
                    | .error e => .error e
                    | .ok outs =>
                        .ok (⟨n1, casavaEncode (pairs.map Prod.fst)⟩ ::
                             ⟨n2, casavaEncode (pairs.map Prod.snd)⟩ :: outs)

/-- Model of `_write2casava_dir_double`: sorts the considered names, then runs the
pairing loop. -/
def write2casava_dir_double (tmpdir : List SFile) (consider : List String) :
    Except PyError (List SFile) :=
  write_double_loop tmpdir (pySorted consider)

/-- The placeholder file synthesized for an empty single-read result. -/
def emptySinglePlaceholder : List SFile :=
  [⟨"xxx_00_L001_R1_001.fastq.gz", []⟩]

/-- The two placeholder files synthesized for an empty paired-end result. -/
def emptyPairedPlaceholder : List SFile :=
  [⟨"xxx_00_L001_R1_001.fastq.gz", []⟩, ⟨"xxx_00_L001_R2_001.fastq.gz", []⟩]

/-- Model of `get_sequences`: fetch all accessions into the scratch directory,
rename to Casava format, then populate the single-read and paired-end
output containers, substituting placeholder files when a category is
empty.  The returned pair is `(casava_out_single, casava_out_double)`. -/
def get_sequences (batch : List AccFetch) : Except PyError (List SFile × List SFile) :=
  match run_fasterq_dump_for_all [] batch with
  | .error e => .error e
  | .ok scratch =>
      match process_downloaded_sequences scratch with
      | .error e => .error e
      | .ok (ren, lsS, lsP) =>
          match (if lsS.isEmpty then .ok emptySinglePlaceholder
                 else write2casava_dir_single ren lsS) with
          | .error e => .error e
          | .ok single =>
              match (if lsP.isEmpty then .ok emptyPairedPlaceholder
                     else write2casava_dir_double ren lsP) with
              | .error e => .error e
              | .ok paired => .ok (single, paired)


/-- A string without any Python whitespace character. -/
def wsFreeStr (s : String) : Bool :=
  s.data.all fun c => !pyWhitespace c

/-- A record whose four fields are whitespace-free. -/
def wsFreeRec (r : FastqRec) : Bool :=
  wsFreeStr r.header && wsFreeStr r.seq && wsFreeStr r.qualHeader && wsFreeStr r.qual

/-- The scratch directory has a first entry named `n` whose line count is
a multiple of 4 (so reading it yields records without raising). -/
def fileWellFormed (tmpdir : List SFile) (n : String) : Bool :=
  match lookupFile tmpdir n with
  | some f => f.lines.length % 4 == 0
  | none => false

/-! ### Lemmas about the retry loop -/

theorem runCmdLoop_all_fail (env : FasterqEnv) (h : ∀ k, env.fileExists k = false) :
    ∀ (r i : Nat), runCmdLoop env i r = (i + r + 1, env.result (i + r)) := by
  intro r
  induction r with
  | zero => intro i; simp [runCmdLoop]
  | succ r ih =>
      intro i
      rw [runCmdLoop, h i, if_neg (by simp), ih (i + 1)]
      have : i + 1 + r = i + (r + 1) := by omega
      rw [this]

theorem runCmdLoop_invocations_pos (env : FasterqEnv) :
    ∀ (r i : Nat), i + 1 ≤ (runCmdLoop env i r).1 := by
  intro r
  induction r with
  | zero => intro i; simp [runCmdLoop]
  | succ r ih =>
      intro i
      rw [runCmdLoop]
      cases hf : env.fileExists i
      · rw [if_neg (by simp)]
        have h2 := ih (i + 1)
        omega
      · simp

theorem runCmdLoop_count_congr (env1 env2 : FasterqEnv)
    (h : ∀ k, env1.fileExists k = env2.fileExists k) :
    ∀ (r i : Nat), (runCmdLoop env1 i r).1 = (runCmdLoop env2 i r).1 := by
  intro r
  induction r with
  | zero => intro i; simp [runCmdLoop]
  | succ r ih =>
      intro i
      rw [runCmdLoop, runCmdLoop, h i]
      cases hf : env2.fileExists i
      · rw [if_neg (by simp), if_neg (by simp)]
        exact ih (i + 1)
      · simp

/-- C2: when no invocation ever produces `<acc>.fastq` or `<acc>_1.fastq`,
`_run_cmd_fasterq` with retry budget `r ≥ 0` invokes the tool exactly
`r + 1` times and returns the result of the last invocation. -/
theorem run_cmd_fasterq_exhausts_retries (env : FasterqEnv) (r : Nat)
    (h : ∀ k, env.fileExists k = false) :
    run_cmd_fasterq env (r : Int) = (r + 1, some (env.result r)) := by
  rw [run_cmd_fasterq, if_neg (by omega)]
  simp [Int.toNat_ofNat, runCmdLoop_all_fail env h r 0]

theorem run_cmd_fasterq_exhausts_retries_witness :
    run_cmd_fasterq ⟨fun k => ⟨Int.ofNat k, "err"⟩, fun _ => false⟩ (2 : Int) =
      (3, some ⟨Int.ofNat 2, "err"⟩) :=
  run_cmd_fasterq_exhausts_retries ⟨fun k => ⟨Int.ofNat k, "err"⟩, fun _ => false⟩ 2
    (fun _ => rfl)

/-- C8: the retry/stop decisions of `_run_cmd_fasterq`, and hence its
invocation count, depend only on which invocations leave a qualifying
output file, never on the subprocess exit codes. -/
theorem run_cmd_fasterq_decisions_ignore_exit_code (env1 env2 : FasterqEnv)
    (retries : Int) (h : ∀ k, env1.fileExists k = env2.fileExists k) :
    (run_cmd_fasterq env1 retries).1 = (run_cmd_fasterq env2 retries).1 := by
  by_cases hr : retries < 0
  · simp [run_cmd_fasterq, hr]
  · rw [run_cmd_fasterq, run_cmd_fasterq, if_neg hr, if_neg hr]
    exact runCmdLoop_count_congr env1 env2 h retries.toNat 0

theorem run_cmd_fasterq_decisions_ignore_exit_code_witness :
    (run_cmd_fasterq ⟨fun _ => ⟨0, "ok"⟩, fun k => decide (1 ≤ k)⟩ (5 : Int)).1 =
      (run_cmd_fasterq ⟨fun _ => ⟨127, "fasterq-dump: not found"⟩,
        fun k => decide (1 ≤ k)⟩ (5 : Int)).1 :=
  run_cmd_fasterq_decisions_ignore_exit_code
    ⟨fun _ => ⟨0, "ok"⟩, fun k => decide (1 ≤ k)⟩
    ⟨fun _ => ⟨127, "fasterq-dump: not found"⟩, fun k => decide (1 ≤ k)⟩
    (5 : Int) (fun _ => rfl)

/-- C10: with a non-negative retry budget the loop body runs at least once,
so the Python variable `result` is bound and returned; with a negative
budget the loop never runs, no invocation happens, and the `return`
statement fails (modelled by the `none` result). -/
theorem run_cmd_fasterq_negative_retries_unbound (env : FasterqEnv) (retries : Int) :
    (0 ≤ retries →
      1 ≤ (run_cmd_fasterq env retries).1 ∧
      ∃ res, (run_cmd_fasterq env retries).2 = some res) ∧
    (retries < 0 → run_cmd_fasterq env retries = (0, none)) := by
  constructor
  · intro hr
    rw [run_cmd_fasterq, if_neg (by omega)]
    exact ⟨runCmdLoop_invocations_pos env retries.toNat 0, _, rfl⟩
  · intro hr
    rw [run_cmd_fasterq, if_pos hr]

theorem run_cmd_fasterq_negative_retries_unbound_witness :
    (1 ≤ (run_cmd_fasterq ⟨fun _ => ⟨1, "e"⟩, fun _ => false⟩ (0 : Int)).1 ∧
      ∃ res, (run_cmd_fasterq ⟨fun _ => ⟨1, "e"⟩, fun _ => false⟩ (0 : Int)).2 = some res) ∧
    run_cmd_fasterq ⟨fun _ => ⟨1, "e"⟩, fun _ => false⟩ (-1 : Int) = (0, none) :=
  ⟨(run_cmd_fasterq_negative_retries_unbound ⟨fun _ => ⟨1, "e"⟩, fun _ => false⟩ 0).1
      (by omega),
   (run_cmd_fasterq_negative_retries_unbound ⟨fun _ => ⟨1, "e"⟩, fun _ => false⟩ (-1)).2
      (by omega)⟩

/-! ### Lemmas about the record reader -/

theorem read_gen_raises_iff (lines : List String) :
    (read_fastq_seqs_gen lines).2 = decide (lines.length % 4 ≠ 0) := by
  induction lines using read_fastq_seqs_gen.induct with
  | case1 => simp [read_fastq_seqs_gen]
  | case2 a b c d rest ih => simp [read_fastq_seqs_gen, ih]; omega
  | case3 l h1 h2 =>
      rcases l with _ | ⟨a, _ | ⟨b, _ | ⟨c, _ | ⟨d, rest⟩⟩⟩⟩
      · exact (h1 rfl).elim
      · simp [read_fastq_seqs_gen]
      · simp [read_fastq_seqs_gen]
      · simp [read_fastq_seqs_gen]
      · exact (h2 a b c d rest rfl).elim

theorem read_gen_count (lines : List String) :
    (read_fastq_seqs_gen lines).1.length = lines.length / 4 := by
  induction lines using read_fastq_seqs_gen.induct with
  | case1 => simp [read_fastq_seqs_gen]
  | case2 a b c d rest ih => simp [read_fastq_seqs_gen, ih]; omega
  | case3 l h1 h2 =>
      rcases l with _ | ⟨a, _ | ⟨b, _ | ⟨c, _ | ⟨d, rest⟩⟩⟩⟩
      · exact (h1 rfl).elim
      · simp [read_fastq_seqs_gen]
      · simp [read_fastq_seqs_gen]
      · simp [read_fastq_seqs_gen]
      · exact (h2 a b c d rest rfl).elim

/-- C3 (counterexample): on a file of 5 lines — a line count that is not a
multiple of 4 — the Record Reader does not deliver a placeholder-padded
final tuple; it raises (`None.strip()` on the `zip_longest` fill value). -/
theorem read_fastq_partial_placeholder_cex :
    read_fastq_seqs ["@r0", "AC", "+", "II", "@r1"] = .error .attributeError := rfl

/-- C3 (amended): for a file whose line count is not a multiple of 4, the
Record Reader yields the `⌊lines/4⌋` complete records and then raises
`AttributeError` while building the final partial tuple (whose missing
fields are the `None` fill value of `zip_longest`), instead of yielding it. -/
theorem read_fastq_partial_tail_raises (lines : List String)
    (h : lines.length % 4 ≠ 0) :
    read_fastq_seqs lines = .error .attributeError ∧
    (read_fastq_seqs_gen lines).1.length = lines.length / 4 := by
  refine ⟨?_, read_gen_count lines⟩
  simp [read_fastq_seqs, read_gen_raises_iff, h]

theorem read_fastq_partial_tail_raises_witness :
    read_fastq_seqs ["@r1"] = .error .attributeError ∧
    (read_fastq_seqs_gen ["@r1"]).1.length = (["@r1"] : List String).length / 4 :=
  read_fastq_partial_tail_raises ["@r1"] (by decide)

/-! ### Lemmas about the batch fetcher -/

theorem run_fasterq_nonempty_no_error (rest : List AccFetch) :
    ∀ dir : List SFile, dir ≠ [] →
      run_fasterq_dump_for_all dir rest =
        .ok (dir ++ (rest.map AccFetch.files).flatten) := by
  induction rest with
  | nil => intro dir _; simp [run_fasterq_dump_for_all]
  | cons a rest ih =>
      intro dir hdir
      have hlen : dir.length ≠ 0 := fun hl => hdir (List.length_eq_zero.mp hl)
      simp only [run_fasterq_dump_for_all]
      rw [if_neg (by rw [List.length_append]; omega)]
      rw [ih (dir ++ a.files) (fun he => hdir (List.append_eq_nil.mp he).1)]
      simp [List.append_assoc]

/-- C6: processing accessions `a :: rest`, the Batch Fetcher raises
`ValueError` naming accession a and the last captured stderr exactly when the whole
scratch directory (prior contents `dir` plus the downloads of accession a) is empty
after the retrieval for that accession; any file already present — in particular one left by
an earlier accession — suppresses the check for every later accession, and
the batch then succeeds regardless of what the later accessions deposit. -/
theorem run_fasterq_dump_error_characterization (a : AccFetch) (rest : List AccFetch)
    (dir : List SFile) :
    run_fasterq_dump_for_all dir (a :: rest) =
      if (dir ++ a.files).length = 0
      then .error (.valueError a.acc a.stderr)
      else .ok (dir ++ a.files ++ (rest.map AccFetch.files).flatten) := by
  simp only [run_fasterq_dump_for_all]
  by_cases h : (dir ++ a.files).length = 0
  · rw [if_pos h, if_pos h]
  · rw [if_neg h, if_neg h,
      run_fasterq_nonempty_no_error rest (dir ++ a.files)
        (fun he => h (by rw [he]; rfl))]

/-- C4: renaming a scratch file applies exactly the three suffix rules:
`*_1.fastq.gz` is paired and becomes `<acc>_00_L001_R1_001.fastq.gz`,
`*_2.fastq.gz` is paired and becomes `<acc>_00_L001_R2_001.fastq.gz`, any
other name is single-end and becomes `<acc>_00_L001_R1_001.fastq.gz` with
`<acc>` the name minus the matched suffix; a name matching no extraction
pattern is a fatal `AttributeError`. -/
theorem process_rename_rules (fn : String) (ls : List String) (aS aP : List String) :
    processLoop [⟨fn, ls⟩] aS aP [fn] =
      if endsWithSuffix fn "_1.fastq.gz" then
        .ok ([⟨stripSuffix fn 11 ++ "_00_L001_R1_001.fastq.gz", ls⟩], aS,
             aP ++ [stripSuffix fn 11 ++ "_00_L001_R1_001.fastq.gz"])
      else if endsWithSuffix fn "_2.fastq.gz" then
        .ok ([⟨stripSuffix fn 11 ++ "_00_L001_R2_001.fastq.gz", ls⟩], aS,
             aP ++ [stripSuffix fn 11 ++ "_00_L001_R2_001.fastq.gz"])
      else if endsWithSuffix fn ".fastq.gz" then
        .ok ([⟨stripSuffix fn 9 ++ "_00_L001_R1_001.fastq.gz", ls⟩],
             aS ++ [stripSuffix fn 9 ++ "_00_L001_R1_001.fastq.gz"], aP)
      else .error .attributeError := by
  simp only [processLoop, classify_filename, renameFile, lookupFile]
  split_ifs with h1 h2 h3 <;> simp [processLoop]

/-! ### Round-trip of the single-end writer and the reader -/

theorem dropWhile_of_all_neg {α : Type} (p : α → Bool) (l : List α)
    (h : ∀ c ∈ l, p c = false) : l.dropWhile p = l := by
  cases l with
  | nil => rfl
  | cons a l => simp [List.dropWhile, h a (by simp)]

theorem pyStrip_of_wsFree (s : String) (h : wsFreeStr s = true) : pyStrip s = s := by
  have hall : ∀ c ∈ s.data, pyWhitespace c = false := by
    intro c hc
    have := (List.all_eq_true.mp h) c hc
    simpa using this
  rw [pyStrip, dropWhile_of_all_neg _ _ hall,
    dropWhile_of_all_neg _ _ (fun c hc => hall c (List.mem_reverse.mp hc)),
    List.reverse_reverse]

theorem read_gen_casavaEncode (recs : List FastqRec)
    (h : ∀ r ∈ recs, wsFreeRec r = true) :
    read_fastq_seqs_gen (casavaEncode recs) = (recs, false) := by
  induction recs with
  | nil => rfl
  | cons r rs ih =>
      have hr := h r (by simp)
      rw [wsFreeRec, Bool.and_eq_true, Bool.and_eq_true, Bool.and_eq_true] at hr
      obtain ⟨⟨⟨h1, h2⟩, h3⟩, h4⟩ := hr
      show read_fastq_seqs_gen (casava_record_lines r ++ casavaEncode rs) = _
      simp only [casava_record_lines, List.cons_append, List.nil_append,
        read_fastq_seqs_gen, ih (fun x hx => h x (by simp [hx]))]
      simp [pyStrip_of_wsFree _ h1, pyStrip_of_wsFree _ h2,
        pyStrip_of_wsFree _ h3, pyStrip_of_wsFree _ h4,
        ih (fun x hx => h x (by simp [hx]))]

/-- C5: writing whitespace-free records through the single-end Casava
Writer and reading the resulting file back with the Record Reader yields
the identical ordered record sequence; consequently the writer itself
leaves an encoded file unchanged when re-encoding it. -/
theorem casava_single_roundtrip (recs : List FastqRec)
    (h : ∀ r ∈ recs, wsFreeRec r = true) :
    read_fastq_seqs (casavaEncode recs) = .ok recs ∧
    write2casava_dir_single [⟨"s_00_L001_R1_001.fastq.gz", casavaEncode recs⟩]
        ["s_00_L001_R1_001.fastq.gz"] =
      .ok [⟨"s_00_L001_R1_001.fastq.gz", casavaEncode recs⟩] := by
  have hread : read_fastq_seqs (casavaEncode recs) = .ok recs := by
    simp [read_fastq_seqs, read_gen_casavaEncode recs h]
  refine ⟨hread, ?_⟩
  simp [write2casava_dir_single, hread]

theorem casava_single_roundtrip_witness :
    read_fastq_seqs (casavaEncode [⟨"@a", "ACGT", "+", "IIII"⟩]) =
      .ok [⟨"@a", "ACGT", "+", "IIII"⟩] ∧
    write2casava_dir_single
        [⟨"s_00_L001_R1_001.fastq.gz", casavaEncode [⟨"@a", "ACGT", "+", "IIII"⟩]⟩]
        ["s_00_L001_R1_001.fastq.gz"] =
      .ok [⟨"s_00_L001_R1_001.fastq.gz", casavaEncode [⟨"@a", "ACGT", "+", "IIII"⟩]⟩] :=
  casava_single_roundtrip [⟨"@a", "ACGT", "+", "IIII"⟩] (by decide)

/-! ### The code-point order used by `sorted` -/

theorem natLexLt_asymm : ∀ a b : List Nat, natLexLt a b = true → natLexLt b a = false := by
  intro a
  induction a with
  | nil => intro b _; cases b <;> rfl
  | cons x xs ih =>
      intro b hab
      cases b with
      | nil => simp [natLexLt] at hab
      | cons y ys =>
          simp only [natLexLt] at hab ⊢
          rcases Nat.lt_trichotomy x y with hlt | heq | hgt
          · rw [if_neg (by omega), if_pos hlt]
          · rw [if_neg (by omega), if_neg (by omega)] at hab ⊢
            exact ih ys hab
          · rw [if_neg (by omega), if_pos hgt] at hab
            cases hab

theorem natLexLt_or_of_lt :
    ∀ c a b : List Nat, natLexLt c a = true →
      natLexLt c b = true ∨ natLexLt b a = true := by
  intro c
  induction c with
  | nil =>
      intro a b hca
      cases a with
      | nil => simp [natLexLt] at hca
      | cons x xs =>
          cases b with
          | nil => right; rfl
          | cons y ys => left; rfl
  | cons z zs ih =>
      intro a b hca
      cases a with
      | nil => simp [natLexLt] at hca
      | cons x xs =>
          cases b with
          | nil => right; rfl
          | cons y ys =>
              simp only [natLexLt] at hca ⊢
              rcases Nat.lt_trichotomy z y with hzy | hzy | hzy
              · left; rw [if_pos hzy]
              · rcases Nat.lt_trichotomy z x with hzx | hzx | hzx
                · right; rw [if_pos (by omega)]
                · rw [if_neg (by omega), if_neg (by omega)] at hca
                  rcases ih xs ys hca with h | h
                  · left; rw [if_neg (by omega), if_neg (by omega)]; exact h
                  · right; rw [if_neg (by omega), if_neg (by omega)]; exact h
                · rw [if_neg (by omega), if_pos (by omega)] at hca
                  cases hca
              · rcases Nat.lt_trichotomy y x with hyx | hyx | hyx
                · right; rw [if_pos hyx]
                · rw [if_neg (by omega), if_pos (by omega)] at hca
                  cases hca
                · rw [if_neg (by omega), if_pos (by omega)] at hca
                  cases hca

theorem pyStrLe_total_of_not (x y : String) (h : pyStrLe x y = false) :
    pyStrLe y x = true := by
  rw [pyStrLe] at h ⊢
  cases hc : natLexLt (charCodes y) (charCodes x) with
  | false => rw [hc] at h; cases h
  | true => rw [natLexLt_asymm _ _ hc]; rfl

theorem pyStrLe_trans (x y z : String) (hxy : pyStrLe x y = true)
    (hyz : pyStrLe y z = true) : pyStrLe x z = true := by
  rw [pyStrLe] at hxy hyz ⊢
  cases hzx : natLexLt (charCodes z) (charCodes x) with
  | false => rfl
  | true =>
      rcases natLexLt_or_of_lt _ _ (charCodes y) hzx with h | h
      · rw [h] at hyz; cases hyz
      · rw [h] at hxy; cases hxy

theorem pyOrderedInsert_perm (x : String) (l : List String) :
    (pyOrderedInsert x l).Perm (x :: l) := by
  induction l with
  | nil => exact List.Perm.refl _
  | cons y ys ih =>
      rw [pyOrderedInsert]
      by_cases h : pyStrLe x y = true
      · rw [if_pos h]
      · rw [if_neg h]
        exact ((ih.cons y).trans (List.Perm.swap x y ys))

theorem pySorted_perm (l : List String) : (pySorted l).Perm l := by
  induction l with
  | nil => exact List.Perm.refl _
  | cons x xs ih =>
      exact (pyOrderedInsert_perm x (pySorted xs)).trans (ih.cons x)

theorem mem_pyOrderedInsert (a x : String) (l : List String) :
    a ∈ pyOrderedInsert x l ↔ a = x ∨ a ∈ l :=
  ((pyOrderedInsert_perm x l).mem_iff).trans (List.mem_cons)

theorem pyOrderedInsert_sorted (x : String) (l : List String)
    (h : List.Sorted (fun a b => pyStrLe a b = true) l) :
    List.Sorted (fun a b => pyStrLe a b = true) (pyOrderedInsert x l) := by
  induction l with
  | nil => simp [pyOrderedInsert]
  | cons y ys ih =>
      rw [List.sorted_cons] at h
      rw [pyOrderedInsert]
      by_cases hxy : pyStrLe x y = true
      · rw [if_pos hxy, List.sorted_cons]
        refine ⟨?_, List.sorted_cons.mpr h⟩
        intro b hb
        rcases List.mem_cons.mp hb with rfl | hb
        · exact hxy
        · exact pyStrLe_trans x y b hxy (h.1 b hb)
      · rw [if_neg hxy, List.sorted_cons]
        refine ⟨?_, ih h.2⟩
        intro b hb
        rcases (mem_pyOrderedInsert b x ys).mp hb with heq | hb
        · rw [heq]
          exact pyStrLe_total_of_not x y (by simpa using hxy)
        · exact h.1 b hb

theorem pySorted_sorted (l : List String) :
    List.Sorted (fun a b => pyStrLe a b = true) (pySorted l) := by
  induction l with
  | nil => simp [pySorted]
  | cons x xs ih => exact pyOrderedInsert_sorted x (pySorted xs) ih

theorem pySorted_pair (a b : String) :
    pySorted [a, b] = if pyStrLe a b = true then [a, b] else [b, a] := by
  by_cases h : pyStrLe a b = true
  · simp [pySorted, pyOrderedInsert, h]
  · simp [pySorted, pyOrderedInsert, h]

theorem twoStepInduction {motive : List String → Prop} (h0 : motive [])
    (h1 : ∀ x, motive [x])
    (h2 : ∀ x y rest, motive rest → motive (x :: y :: rest)) :
    ∀ l, motive l
  | [] => h0
  | [x] => h1 x
  | x :: y :: rest => h2 x y rest (twoStepInduction h0 h1 h2 rest)

theorem casavaEncode_length (recs : List FastqRec) :
    (casavaEncode recs).length = 4 * recs.length := by
  induction recs with
  | nil => rfl
  | cons r rs ih =>
      simp [casavaEncode, casava_record_lines, ih]
      omega

theorem write_double_loop_spec (tmpdir : List SFile) (names : List String)
    (hwf : ∀ n ∈ names, fileWellFormed tmpdir n = true) :
    (names.length % 2 = 1 → write_double_loop tmpdir names = .error .indexError) ∧
    (names.length % 2 = 0 → ∃ outs, write_double_loop tmpdir names = .ok outs ∧
      outs.map SFile.name = names) := by
  induction names using twoStepInduction with
  | h0 => exact ⟨fun h => by simp at h, fun _ => ⟨[], rfl, rfl⟩⟩
  | h1 x => exact ⟨fun _ => rfl, fun h => by simp at h⟩
  | h2 x y rest ih =>
      have hw1 := hwf x (by simp)
      have hw2 := hwf y (by simp)
      rw [fileWellFormed] at hw1 hw2
      have ihr := ih (fun n hn => hwf n (by simp [hn]))
      cases hlk1 : lookupFile tmpdir x with
      | none => rw [hlk1] at hw1; cases hw1
      | some f1 =>
          rw [hlk1] at hw1
          have hm1 : f1.lines.length % 4 = 0 := by simpa using hw1
          have hea : (read_fastq_seqs_gen f1.lines).2 = false := by
            rw [read_gen_raises_iff]
            simp [hm1]
          rw [write_double_loop, hlk1]
          dsimp only []
          by_cases hAe : (read_fastq_seqs_gen f1.lines).1.isEmpty = true
          · rw [if_pos hAe, hea, if_neg (by simp)]
            constructor
            · intro hodd
              rw [(ihr.1 (by simp at hodd ⊢; omega))]
            · intro heven
              obtain ⟨outs, houts, hmap⟩ := ihr.2 (by simp at heven ⊢; omega)
              rw [houts]
              exact ⟨_, rfl, by simp [hmap]⟩
          · rw [if_neg hAe]
            cases hlk2 : lookupFile tmpdir y with
            | none => rw [hlk2] at hw2; cases hw2
            | some f2 =>
                rw [hlk2] at hw2
                have hm2 : f2.lines.length % 4 = 0 := by simpa using hw2
                have heb : (read_fastq_seqs_gen f2.lines).2 = false := by
                  rw [read_gen_raises_iff]
                  simp [hm2]
                dsimp only []
                have hzip : zipPulls (read_fastq_seqs_gen f1.lines).1
                    (read_fastq_seqs_gen f1.lines).2 (read_fastq_seqs_gen f2.lines).1
                    (read_fastq_seqs_gen f2.lines).2 =
                    .ok ((read_fastq_seqs_gen f1.lines).1.zip
                      (read_fastq_seqs_gen f2.lines).1) := by
                  rw [zipPulls, hea, heb, ite_self, if_neg (by simp)]
                rw [hzip]
                constructor
                · intro hodd
                  rw [(ihr.1 (by simp at hodd ⊢; omega))]
                · intro heven
                  obtain ⟨outs, houts, hmap⟩ := ihr.2 (by simp at heven ⊢; omega)
                  rw [houts]
                  exact ⟨_, rfl, by simp [hmap]⟩

/-- C7: the paired Casava Writer sorts the considered filenames into the
code-point (lexicographic) order and pairs adjacent elements, element `2i`
as forward and `2i+1` as reverse; an odd-length list is a fatal
`IndexError` (`ls_files_sorted[i+1]`), no unpaired file is written. -/
theorem write2casava_double_sorts_pairs (tmpdir : List SFile) (consider : List String)
    (hdir : ∀ n ∈ consider, fileWellFormed tmpdir n = true) :
    List.Sorted (fun a b => pyStrLe a b = true) (pySorted consider) ∧
    (pySorted consider).Perm consider ∧
    (consider.length % 2 = 1 →
      write2casava_dir_double tmpdir consider = .error .indexError) ∧
    (consider.length % 2 = 0 →
      ∃ outs, write2casava_dir_double tmpdir consider = .ok outs ∧
        outs.map SFile.name = pySorted consider) := by
  have hperm := pySorted_perm consider
  have hwf2 : ∀ n ∈ pySorted consider, fileWellFormed tmpdir n = true :=
    fun n hn => hdir n (hperm.mem_iff.mp hn)
  have hspec := write_double_loop_spec tmpdir (pySorted consider) hwf2
  have hlen : (pySorted consider).length = consider.length := hperm.length_eq
  refine ⟨pySorted_sorted consider, hperm, ?_, ?_⟩
  · intro hodd
    rw [write2casava_dir_double]
    exact hspec.1 (by rw [hlen]; exact hodd)
  · intro heven
    rw [write2casava_dir_double]
    exact hspec.2 (by rw [hlen]; exact heven)

theorem write2casava_double_sorts_pairs_witness :
    write2casava_dir_double [⟨"b", []⟩, ⟨"a", []⟩, ⟨"c", []⟩] ["b", "a", "c"] =
      .error .indexError :=
  (write2casava_double_sorts_pairs [⟨"b", []⟩, ⟨"a", []⟩, ⟨"c", []⟩] ["b", "a", "c"]
      (by decide)).2.2.1 (by decide)

theorem write_double_loop_two (tmpdir : List SFile) (na nb : String) (fa fb : SFile)
    (hla : lookupFile tmpdir na = some fa) (hlb : lookupFile tmpdir nb = some fb)
    (hma : fa.lines.length % 4 = 0) (hmb : fb.lines.length % 4 = 0) :
    ∃ outs, write_double_loop tmpdir [na, nb] = .ok outs ∧
      outs.map (fun f => f.lines.length) =
        [4 * min (fa.lines.length / 4) (fb.lines.length / 4),
         4 * min (fa.lines.length / 4) (fb.lines.length / 4)] := by
  have hea : (read_fastq_seqs_gen fa.lines).2 = false := by
    rw [read_gen_raises_iff]
    simp [hma]
  have heb : (read_fastq_seqs_gen fb.lines).2 = false := by
    rw [read_gen_raises_iff]
    simp [hmb]
  have hca : (read_fastq_seqs_gen fa.lines).1.length = fa.lines.length / 4 :=
    read_gen_count _
  have hcb : (read_fastq_seqs_gen fb.lines).1.length = fb.lines.length / 4 :=
    read_gen_count _
  rw [write_double_loop, hla]
  dsimp only []
  by_cases hAe : (read_fastq_seqs_gen fa.lines).1.isEmpty = true
  · rw [if_pos hAe, hea, if_neg (by simp)]
    rw [write_double_loop]
    have hnil : (read_fastq_seqs_gen fa.lines).1 = [] := by
      cases hx : (read_fastq_seqs_gen fa.lines).1 with
      | nil => rfl
      | cons a l => rw [hx] at hAe; simp [List.isEmpty] at hAe
    have hz : fa.lines.length / 4 = 0 := by
      rw [← hca, hnil]
      rfl
    exact ⟨_, rfl, by simp [hz]⟩
  · rw [if_neg hAe, hlb]
    dsimp only []
    rw [zipPulls, hea, heb, ite_self, if_neg (by simp)]
    rw [write_double_loop]
    refine ⟨_, rfl, ?_⟩
    simp [casavaEncode_length, List.length_zip, hca, hcb]

/-- C9: on a pair of well-formed FASTQ files with record counts `m` and
`n`, `m ≠ n`, the paired Casava Writer succeeds and writes exactly
`min m n` records (`4 * min m n` lines) into each of the two output files,
silently discarding the surplus records of the longer file. -/
theorem write2casava_double_truncates_to_min (n1 n2 : String) (l1 l2 : List String)
    (hne : n1 ≠ n2) (h1 : l1.length % 4 = 0) (h2 : l2.length % 4 = 0)
    (hdiff : l1.length / 4 ≠ l2.length / 4) :
    ∃ outs, write2casava_dir_double [⟨n1, l1⟩, ⟨n2, l2⟩] [n1, n2] = .ok outs ∧
      outs.map (fun f => f.lines.length) =
        [4 * min (l1.length / 4) (l2.length / 4),
         4 * min (l1.length / 4) (l2.length / 4)] := by
  have hbeq : (n1 == n2) = false := by simpa using hne
  have hl1 : lookupFile [⟨n1, l1⟩, ⟨n2, l2⟩] n1 = some ⟨n1, l1⟩ := by
    simp [lookupFile]
  have hl2 : lookupFile [⟨n1, l1⟩, ⟨n2, l2⟩] n2 = some ⟨n2, l2⟩ := by
    simp [lookupFile, List.find?, hbeq]
  rw [write2casava_dir_double, pySorted_pair]
  by_cases hle : pyStrLe n1 n2 = true
  · rw [if_pos hle]
    exact write_double_loop_two _ n1 n2 ⟨n1, l1⟩ ⟨n2, l2⟩ hl1 hl2 h1 h2
  · rw [if_neg hle]
    obtain ⟨outs, ho, hm⟩ :=
      write_double_loop_two _ n2 n1 ⟨n2, l2⟩ ⟨n1, l1⟩ hl2 hl1 h2 h1
    exact ⟨outs, ho, by rw [hm]; simp [Nat.min_comm]⟩

theorem write2casava_double_truncates_to_min_witness :
    ∃ outs,
      write2casava_dir_double
          [⟨"a", ["@a", "A", "+", "I"]⟩,
           ⟨"b", ["@b", "T", "+", "I", "@c", "G", "+", "I"]⟩] ["a", "b"] =
        .ok outs ∧
      outs.map (fun f => f.lines.length) = [4 * min 1 2, 4 * min 1 2] :=
  write2casava_double_truncates_to_min "a" "b" ["@a", "A", "+", "I"]
    ["@b", "T", "+", "I", "@c", "G", "+", "I"] (by decide) (by decide) (by decide)
    (by decide)

/-! ### Survival of a single-read file through the renaming loop -/

theorem endsWithSuffix_append (x suf : String) :
    endsWithSuffix (x ++ suf) suf = true := by
  rw [endsWithSuffix, String.data_append]
  exact List.isSuffixOf_iff_suffix.mpr (List.suffix_append _ _)

theorem classify_single_shape (fn nw : String)
    (h : classify_filename fn = some (nw, false)) :
    endsWithSuffix nw "_00_L001_R1_001.fastq.gz" = true := by
  rw [classify_filename] at h
  split_ifs at h with h1 h2 h3
  · rw [Option.some.injEq, Prod.mk.injEq] at h
    cases h.2
  · rw [Option.some.injEq, Prod.mk.injEq] at h
    cases h.2
  · rw [Option.some.injEq, Prod.mk.injEq] at h
    rw [← h.1]
    exact endsWithSuffix_append _ _

theorem classify_paired_src (fn nw : String)
    (h : classify_filename fn = some (nw, true)) :
    endsWithSuffix fn "_1.fastq.gz" = true ∨ endsWithSuffix fn "_2.fastq.gz" = true := by
  rw [classify_filename] at h
  split_ifs at h with h1 h2 h3
  · exact Or.inl h1
  · exact Or.inr h2
  · rw [Option.some.injEq, Prod.mk.injEq] at h
    cases h.2

theorem suffix_shorter (fn s1 s2 : String) (h1 : endsWithSuffix fn s1 = true)
    (h2 : endsWithSuffix fn s2 = true) (hlen : s1.data.length ≤ s2.data.length) :
    s1.data <:+ s2.data :=
  List.suffix_of_suffix_length_le (List.isSuffixOf_iff_suffix.mp h1)
    (List.isSuffixOf_iff_suffix.mp h2) hlen

theorem endsR1_not_paired_pattern (n : String)
    (hR1 : endsWithSuffix n "_00_L001_R1_001.fastq.gz" = true) :
    endsWithSuffix n "_1.fastq.gz" = false ∧ endsWithSuffix n "_2.fastq.gz" = false := by
  constructor
  · cases hx : endsWithSuffix n "_1.fastq.gz" with
    | false => rfl
    | true =>
        have hs := suffix_shorter n _ _ hx hR1 (by decide)
        exact absurd hs (by decide)
  · cases hx : endsWithSuffix n "_2.fastq.gz" with
    | false => rfl
    | true =>
        have hs := suffix_shorter n _ _ hx hR1 (by decide)
        exact absurd hs (by decide)

theorem processLoop_single_survivor :
    ∀ (listing : List String) (dir : List SFile) (aS aP : List String)
      (ren : List SFile) (lsS lsP : List String),
      processLoop dir aS aP listing = .ok (ren, lsS, lsP) →
      (aS = [] ∨ ∃ n, n ∈ aS ∧ endsWithSuffix n "_00_L001_R1_001.fastq.gz" = true ∧
        ∃ f, f ∈ dir ∧ f.name = n) →
      (lsS = [] ∨ ∃ n, n ∈ lsS ∧ endsWithSuffix n "_00_L001_R1_001.fastq.gz" = true ∧
        ∃ f, f ∈ ren ∧ f.name = n) := by
  intro listing
  induction listing with
  | nil =>
      intro dir aS aP ren lsS lsP h hinv
      rw [processLoop, Except.ok.injEq, Prod.mk.injEq, Prod.mk.injEq] at h
      obtain ⟨h1, h2, h3⟩ := h
      subst h1
      subst h2
      exact hinv
  | cons fn rest ih =>
      intro dir aS aP ren lsS lsP h hinv
      rw [processLoop] at h
      cases hcf : classify_filename fn with
      | none => rw [hcf] at h; simp at h
      | some pr =>
          obtain ⟨new, isPaired⟩ := pr
          rw [hcf] at h
          dsimp only [] at h
          cases hrn : renameFile dir fn new with
          | error e => rw [hrn] at h; simp at h
          | ok dir' =>
              rw [hrn] at h
              have hdir2 : ∃ f, lookupFile dir fn = some f ∧
                  dir' = (dir.filter fun g => !(g.name == fn) && !(g.name == new)) ++
                    [⟨new, f.lines⟩] := by
                rw [renameFile] at hrn
                cases hlf : lookupFile dir fn with
                | none => rw [hlf] at hrn; simp at hrn
                | some f =>
                    rw [hlf] at hrn
                    simp only [Except.ok.injEq] at hrn
                    exact ⟨f, rfl, hrn.symm⟩
              obtain ⟨f, hlf, hdeq⟩ := hdir2
              cases isPaired with
              | false =>
                  refine ih dir' (aS ++ [new]) aP ren lsS lsP (by simpa using h) ?_
                  right
                  refine ⟨new, by simp, classify_single_shape fn new hcf,
                    ⟨new, f.lines⟩, ?_, rfl⟩
                  rw [hdeq]
                  exact List.mem_append_right _ (by simp)
              | true =>
                  refine ih dir' aS (aP ++ [new]) ren lsS lsP (by simpa using h) ?_
                  rcases hinv with hnil | ⟨n, hnS, hR1, g, hgdir, hgname⟩
                  · exact Or.inl hnil
                  · right
                    by_cases hnnew : n = new
                    · exact ⟨n, hnS, hR1, ⟨new, f.lines⟩,
                        by rw [hdeq]; exact List.mem_append_right _ (by simp),
                        by simp [hnnew]⟩
                    · have hnfn : n ≠ fn := by
                        intro he
                        rcases classify_paired_src fn new hcf with hp | hp
                        · have h1f := (endsR1_not_paired_pattern n hR1).1
                          rw [he] at h1f
                          rw [h1f] at hp
                          cases hp
                        · have h2f := (endsR1_not_paired_pattern n hR1).2
                          rw [he] at h2f
                          rw [h2f] at hp
                          cases hp
                      refine ⟨n, hnS, hR1, g, ?_, hgname⟩
                      rw [hdeq]
                      apply List.mem_append_left
                      rw [List.mem_filter]
                      refine ⟨hgdir, ?_⟩
                      rw [hgname]
                      simp [beq_false_of_ne hnfn, beq_false_of_ne hnnew]

theorem process_single_survivor (dir ren : List SFile) (lsS lsP : List String)
    (h : process_downloaded_sequences dir = .ok (ren, lsS, lsP)) :
    lsS = [] ∨ ∃ n, n ∈ lsS ∧ ∃ f, f ∈ ren ∧ f.name = n := by
  simp only [process_downloaded_sequences] at h
  have hs := processLoop_single_survivor ((gzipDir dir).map SFile.name) (gzipDir dir)
    [] [] ren lsS lsP h (Or.inl rfl)
  rcases hs with h1 | ⟨n, hn, _, f, hf, hfn⟩
  · exact Or.inl h1
  · exact Or.inr ⟨n, hn, f, hf, hfn⟩

theorem write_single_ok_ne_nil :
    ∀ (tmpdir : List SFile) (consider : List String) (out : List SFile),
      write2casava_dir_single tmpdir consider = .ok out →
      (∃ f, f ∈ tmpdir ∧ f.name ∈ consider) → out ≠ [] := by
  intro tmpdir
  induction tmpdir with
  | nil =>
      intro consider out _ hex
      obtain ⟨f, hf, _⟩ := hex
      exact absurd hf (by simp)
  | cons f fs ih =>
      intro consider out h hex
      rw [write2casava_dir_single] at h
      by_cases hc : consider.contains f.name = true
      · rw [if_pos hc] at h
        cases hr : read_fastq_seqs f.lines with
        | error e => rw [hr] at h; simp at h
        | ok recs =>
            rw [hr] at h
            cases hw : write2casava_dir_single fs consider with
            | error e => rw [hw] at h; simp at h
            | ok out2 =>
                rw [hw] at h
                simp only [Except.ok.injEq] at h
                rw [← h]
                simp
      · rw [if_neg hc] at h
        obtain ⟨g, hg, hgc⟩ := hex
        rcases List.mem_cons.mp hg with heq | hgfs
        · exact absurd (List.elem_iff.mpr (heq ▸ hgc)) hc
        · exact ih consider out h ⟨g, hgfs, hgc⟩

theorem write_double_loop_ok_ne_nil (tmpdir : List SFile) (names : List String)
    (outs : List SFile) (h : write_double_loop tmpdir names = .ok outs)
    (hne : names ≠ []) : outs ≠ [] := by
  rcases names with _ | ⟨x, _ | ⟨y, rest⟩⟩
  · exact absurd rfl hne
  · rw [write_double_loop] at h
    simp at h
  · rw [write_double_loop] at h
    cases hlk1 : lookupFile tmpdir x with
    | none => rw [hlk1] at h; simp at h
    | some f1 =>
        rw [hlk1] at h
        dsimp only [] at h
        by_cases hAe : (read_fastq_seqs_gen f1.lines).1.isEmpty = true
        · rw [if_pos hAe] at h
          by_cases he2 : (read_fastq_seqs_gen f1.lines).2 = true
          · rw [if_pos he2] at h
            simp at h
          · rw [if_neg he2] at h
            cases hw : write_double_loop tmpdir rest with
            | error e => rw [hw] at h; simp at h
            | ok outs2 =>
                rw [hw] at h
                simp only [Except.ok.injEq] at h
                rw [← h]
                simp
        · rw [if_neg hAe] at h
          cases hlk2 : lookupFile tmpdir y with
          | none => rw [hlk2] at h; simp at h
          | some f2 =>
              rw [hlk2] at h
              dsimp only [] at h
              cases hz : zipPulls (read_fastq_seqs_gen f1.lines).1
                  (read_fastq_seqs_gen f1.lines).2 (read_fastq_seqs_gen f2.lines).1
                  (read_fastq_seqs_gen f2.lines).2 with
              | error e => rw [hz] at h; simp at h
              | ok pairs =>
                  rw [hz] at h
                  cases hw : write_double_loop tmpdir rest with
                  | error e => rw [hw] at h; simp at h
                  | ok outs2 =>
                      rw [hw] at h
                      simp only [Except.ok.injEq] at h
                      rw [← h]
                      simp

/-- C1: every successful run of `get_sequences` returns two non-empty
containers; when the classified single-read name list is empty the single
container holds exactly the one sentinel placeholder file, when the
classified paired name list is empty the paired container holds exactly the
two sentinel placeholder files, and otherwise the container is exactly the
output of the corresponding Casava writer on the real data. -/
theorem get_sequences_outputs_nonempty (batch : List AccFetch) (s p : List SFile)
    (h : get_sequences batch = .ok (s, p)) :
    s ≠ [] ∧ p ≠ [] ∧
    ∀ scratch ren lsS lsP,
      run_fasterq_dump_for_all [] batch = .ok scratch →
      process_downloaded_sequences scratch = .ok (ren, lsS, lsP) →
      (lsS = [] → s = emptySinglePlaceholder) ∧
      (lsS ≠ [] → write2casava_dir_single ren lsS = .ok s) ∧
      (lsP = [] → p = emptyPairedPlaceholder) ∧
      (lsP ≠ [] → write2casava_dir_double ren lsP = .ok p) := by
  rw [get_sequences] at h
  cases hf : run_fasterq_dump_for_all [] batch with
  | error e => rw [hf] at h; simp at h
  | ok scratch0 =>
      rw [hf] at h
      dsimp only [] at h
      cases hp : process_downloaded_sequences scratch0 with
      | error e => rw [hp] at h; simp at h
      | ok triple =>
          obtain ⟨ren0, lsS0, lsP0⟩ := triple
          rw [hp] at h
          dsimp only [] at h
          have hgen : ∃ single paired, s = single ∧ p = paired ∧
              (lsS0 = [] → single = emptySinglePlaceholder) ∧
              (lsS0 ≠ [] → write2casava_dir_single ren0 lsS0 = .ok single) ∧
              (lsP0 = [] → paired = emptyPairedPlaceholder) ∧
              (lsP0 ≠ [] → write2casava_dir_double ren0 lsP0 = .ok paired) ∧
              single ≠ [] ∧ paired ≠ [] := by
            by_cases hS : lsS0.isEmpty = true
            · rw [if_pos hS] at h
              have hSnil : lsS0 = [] := List.isEmpty_iff.mp hS
              dsimp only [] at h
              by_cases hP : lsP0.isEmpty = true
              · rw [if_pos hP] at h
                have hPnil : lsP0 = [] := List.isEmpty_iff.mp hP
                dsimp only [] at h
                simp only [Except.ok.injEq, Prod.mk.injEq] at h
                refine ⟨emptySinglePlaceholder, emptyPairedPlaceholder,
                  h.1.symm, h.2.symm, fun _ => rfl,
                  fun hne => absurd hSnil hne, fun _ => rfl,
                  fun hne => absurd hPnil hne, by simp [emptySinglePlaceholder],
                  by simp [emptyPairedPlaceholder]⟩
              · rw [if_neg hP] at h
                have hPne : lsP0 ≠ [] := fun he => hP (by rw [he]; rfl)
                cases hw2 : write2casava_dir_double ren0 lsP0 with
                | error e => rw [hw2] at h; simp at h
                | ok paired =>
                    rw [hw2] at h
                    simp only [Except.ok.injEq, Prod.mk.injEq] at h
                    have hsne : pySorted lsP0 ≠ [] := by
                      intro he
                      have hlp := (pySorted_perm lsP0).length_eq
                      rw [he] at hlp
                      exact hPne (List.length_eq_zero.mp hlp.symm)
                    have hres : paired ≠ [] := by
                      rw [write2casava_dir_double] at hw2
                      exact write_double_loop_ok_ne_nil ren0 (pySorted lsP0)
                        paired hw2 hsne
                    refine ⟨emptySinglePlaceholder, paired, h.1.symm, h.2.symm,
                      fun _ => rfl, fun hne => absurd hSnil hne,
                      fun he => absurd he hPne, fun _ => rfl,
                      by simp [emptySinglePlaceholder], hres⟩
            · rw [if_neg hS] at h
              have hSne : lsS0 ≠ [] := fun he => hS (by rw [he]; rfl)
              cases hw1 : write2casava_dir_single ren0 lsS0 with
              | error e => rw [hw1] at h; simp at h
              | ok single =>
                  rw [hw1] at h
                  dsimp only [] at h
                  have hmem : ∃ f, f ∈ ren0 ∧ f.name ∈ lsS0 := by
                    rcases process_single_survivor scratch0 ren0 lsS0 lsP0 hp with
                      hnil | ⟨n, hn, f, hfmem, hfn⟩
                    · exact absurd hnil hSne
                    · exact ⟨f, hfmem, by rw [hfn]; exact hn⟩
                  have hsingle_ne : single ≠ [] :=
                    write_single_ok_ne_nil ren0 lsS0 single hw1 hmem
                  by_cases hP : lsP0.isEmpty = true
                  · rw [if_pos hP] at h
                    have hPnil : lsP0 = [] := List.isEmpty_iff.mp hP
                    dsimp only [] at h
                    simp only [Except.ok.injEq, Prod.mk.injEq] at h
                    refine ⟨single, emptyPairedPlaceholder, h.1.symm, h.2.symm,
                      fun he => absurd he hSne, fun _ => rfl, fun _ => rfl,
                      fun hne => absurd hPnil hne, hsingle_ne,
                      by simp [emptyPairedPlaceholder]⟩
                  · rw [if_neg hP] at h
                    have hPne : lsP0 ≠ [] := fun he => hP (by rw [he]; rfl)
                    cases hw2 : write2casava_dir_double ren0 lsP0 with
                    | error e => rw [hw2] at h; simp at h
                    | ok paired =>
                        rw [hw2] at h
                        simp only [Except.ok.injEq, Prod.mk.injEq] at h
                        have hsne : pySorted lsP0 ≠ [] := by
                          intro he
                          have hlp := (pySorted_perm lsP0).length_eq
                          rw [he] at hlp
                          exact hPne (List.length_eq_zero.mp hlp.symm)
                        have hres : paired ≠ [] := by
                          rw [write2casava_dir_double] at hw2
                          exact write_double_loop_ok_ne_nil ren0 (pySorted lsP0)
                            paired hw2 hsne
                        refine ⟨single, paired, h.1.symm, h.2.symm,
                          fun he => absurd he hSne, fun _ => rfl,
                          fun he => absurd he hPne, fun _ => rfl,
                          hsingle_ne, hres⟩
          obtain ⟨single, paired, hs, hpp, c1, c2, c3, c4, hne1, hne2⟩ := hgen
          subst hs
          subst hpp
          refine ⟨hne1, hne2, ?_⟩
          intro scratch ren lsS lsP hf2 hp2
          simp only [Except.ok.injEq] at hf2
          subst hf2
          rw [hp] at hp2
          simp only [Except.ok.injEq, Prod.mk.injEq] at hp2
          obtain ⟨hr1, hr2, hr3⟩ := hp2
          subst hr1
          subst hr2
          subst hr3
          exact ⟨c1, c2, c3, c4⟩

theorem get_sequences_outputs_nonempty_witness :
    ([⟨"SRR1_00_L001_R1_001.fastq.gz", ["@r1", "AC", "+", "II"]⟩] : List SFile) ≠ [] ∧
    emptyPairedPlaceholder ≠ [] :=
  ⟨(get_sequences_outputs_nonempty
      [⟨"SRR1", [⟨"SRR1.fastq", ["@r1", "AC", "+", "II"]⟩], ""⟩]
      [⟨"SRR1_00_L001_R1_001.fastq.gz", ["@r1", "AC", "+", "II"]⟩]
      emptyPairedPlaceholder rfl).1,
   (get_sequences_outputs_nonempty
      [⟨"SRR1", [⟨"SRR1.fastq", ["@r1", "AC", "+", "II"]⟩], ""⟩]
      [⟨"SRR1_00_L001_R1_001.fastq.gz", ["@r1", "AC", "+", "II"]⟩]
      emptyPairedPlaceholder rfl).2.1⟩
